import Mathlib

/-!
Shallow embedding of the glyph-encoding and image-pipeline core of tplay
(src/pipeline/char_maps.rs and src/pipeline/image_pipeline.rs), together
with theorems settling the specification claims about it.

Modelling conventions:
* Rust `u8` luminance samples are `Nat` values; where a claim depends on the
  `u8` range, the bound `≤ 255` is an explicit hypothesis.
* Rust `u32` arithmetic that can overflow is taken modulo `2^32`
  (release-mode wrapping semantics).
* Fallible or panicking Rust paths (indexing out of bounds,
  `char::from_u32(..).unwrap()`, the out-of-range bitmask arm, failed
  assertions) are modelled with `Option` / `Except`: `none` / `.error`
  marks the aborting path.
* A `SubImage<&GrayImage>` view is modelled as its pixel-access function
  `Nat → Nat → Nat` (luminance channel of `get_pixel`).
-/

/-- Models `char::from_u32`: `some` exactly on valid Unicode scalar values,
`none` where `from_u32` returns `None` (so `.unwrap()` of the Rust code is
the `Option` itself, `none` marking the aborting path). -/
def fromU32 (n : Nat) : Option Char :=
  if h : n.isValidChar then some (Char.ofNatAux n h) else none

/-- Pixel access of a grayscale sub-image view: `v x y` is the luminance
channel `get_pixel(x, y)[0]`. -/
abbrev PixView := Nat → Nat → Nat

/-- The `CharMaps` enum of char_maps.rs: `Simple(Vec<char>)`, `Braille`,
`Mosaic`, `TeletextMosaic`. -/
inductive CharMaps where
  | Simple (cs : List Char)
  | Braille
  | Mosaic
  | TeletextMosaic
deriving DecidableEq

/-- Models `impl<T: AsRef<str>> From<T> for CharMaps`: collect the chars of
the string into a `Simple` map. -/
def charMapsFromStr (s : String) : CharMaps := CharMaps.Simple s.toList

/-- The `braille_dots` position-to-bit table of `Braille::get_char`. -/
def braille_dots : List ((Nat × Nat) × Nat) :=
  [((0, 0), 0x1), ((1, 0), 0x8), ((0, 1), 0x2), ((1, 1), 0x10),
   ((0, 2), 0x4), ((1, 2), 0x20), ((0, 3), 0x40), ((1, 3), 0x80)]

/-- One iteration of the `Braille::get_char` loop: `braille |= braille_bit`
when the sample at the entry's position has luminance strictly above 127. -/
def brailleStep (v : PixView) (acc : Nat) (pb : (Nat × Nat) × Nat) : Nat :=
  match pb with
  | ((x, y), braille_bit) => if v x y > 127 then acc ||| braille_bit else acc

/-- The accumulation loop of `Braille::get_char`: start from the blank
Braille codepoint 0x2800 and OR in (`braille |= braille_bit`) each bit whose
sample has luminance strictly above 127. -/
def brailleAccum (v : PixView) : Nat :=
  braille_dots.foldl (brailleStep v) 0x2800

/-- The `mosaic_blocks` position-to-bit table of `Mosaic::get_char`. -/
def mosaic_blocks : List ((Nat × Nat) × Nat) :=
  [((0, 0), 0x1), ((1, 0), 0x2), ((0, 1), 0x4),
   ((1, 1), 0x8), ((0, 2), 0x10), ((1, 2), 0x20)]

/-- The accumulation loop of `Mosaic::get_char`: add (`mosaic += mosaic_bit`)
each bit whose sample has luminance strictly above 127, starting from 0. -/
def mosaicMask (v : PixView) : Nat :=
  mosaic_blocks.foldl
    (fun acc pb =>
      match pb with
      | ((x, y), mosaic_bit) => if v x y > 127 then acc + mosaic_bit else acc)
    0

/-- The `mosaic_blocks` table of `TeletextMosaic::get_char` (the source
repeats the same literal array). -/
def teletext_blocks : List ((Nat × Nat) × Nat) :=
  [((0, 0), 0x1), ((1, 0), 0x2), ((0, 1), 0x4),
   ((1, 1), 0x8), ((0, 2), 0x10), ((1, 2), 0x20)]

/-- The accumulation loop of `TeletextMosaic::get_char`. -/
def teletextMask (v : PixView) : Nat :=
  teletext_blocks.foldl
    (fun acc pb =>
      match pb with
      | ((x, y), mosaic_bit) => if v x y > 127 then acc + mosaic_bit else acc)
    0

/-- The `mosaic_char` match of char_maps.rs, arm by arm; the
`0x40..=0xFF` arm aborts the program, modelled as `none`. -/
def mosaic_char (bitmask : Nat) : Option Char :=
  if bitmask = 0 then some ' '
  else if 0x01 ≤ bitmask ∧ bitmask ≤ 0x14 then fromU32 (0x1FB00 + bitmask - 0x01)
  else if bitmask = 0x15 then some '▌'
  else if 0x16 ≤ bitmask ∧ bitmask ≤ 0x29 then fromU32 (0x1FB00 + bitmask - 0x02)
  else if bitmask = 0x2A then some '▐'
  else if 0x2B ≤ bitmask ∧ bitmask ≤ 0x3E then fromU32 (0x1FB00 + bitmask - 0x03)
  else if bitmask = 0x3F then some '█'
  else none

/-- The `teletext_mosaic_char` function of char_maps.rs: abort (`none`) on a
bitmask at or above 0x40, compute `0xE020 + (mask & 0x1F) + ((mask & 0x20) << 1)`,
abort if the assertion `(0xE000..=0xE0FF).contains(&mosaic)` would fail,
then `char::from_u32(..).unwrap()`. -/
def teletext_mosaic_char (bitmask : Nat) : Option Char :=
  if bitmask ≥ 0x40 then none
  else
    let mosaic := 0xE020 + (bitmask &&& 0x1F) + ((bitmask &&& 0x20) <<< 1)
    if 0xE000 ≤ mosaic ∧ mosaic ≤ 0xE0FF then fromU32 mosaic else none

/-- The `CharMap::get_char` dispatch of `CharMaps`. For `Simple` the index
`self.len() * lum / (u8::MAX + 1)` is looked up with `self[idx]`, whose
out-of-bounds abort is the `none` of `List.get?`. -/
def CharMaps.get_char : CharMaps → PixView → Option Char
  | CharMaps.Simple cs, v => cs.get? (cs.length * v 0 0 / 256)
  | CharMaps.Braille, v => fromU32 (brailleAccum v)
  | CharMaps.Mosaic, v => mosaic_char (mosaicMask v)
  | CharMaps.TeletextMosaic, v => teletext_mosaic_char (teletextMask v)

/-- The `CharMap::get_subpixels` dispatch of `CharMaps`. -/
def CharMaps.get_subpixels : CharMaps → Nat × Nat
  | CharMaps.Simple _ => (1, 1)
  | CharMaps.Braille => (2, 4)
  | CharMaps.Mosaic => (2, 3)
  | CharMaps.TeletextMosaic => (2, 3)

/-- The `CharMap::get_line_prefix` dispatch of `CharMaps`: the escape
character U+E017 for `TeletextMosaic`, the empty string otherwise. -/
def CharMaps.get_line_prefix : CharMaps → List Char
  | CharMaps.TeletextMosaic => [Char.ofNat 0xE017]
  | _ => []

/-- The bit an entry of the position table contributes: the entry's bit
weight when its sample is strictly brighter than 127, otherwise 0. -/
def brailleBit (v : PixView) (pb : (Nat × Nat) × Nat) : Nat :=
  match pb with
  | ((x, y), braille_bit) => if v x y > 127 then braille_bit else 0

/-- An RGB image (`DynamicImage` / `RgbImage` content): dimensions in pixels
and a pixel-access function returning the three 8-bit channels. Pixel data
is a total function, so the length side conditions of the buffer
constructors of the Rust code (always satisfied there, since the buffers are
allocated at exactly `width * height` pixels) are vacuous in the model. -/
structure Image where
  width : Nat
  height : Nat
  pix : Nat → Nat → Nat × Nat × Nat

/-- A grayscale image (`GrayImage`): dimensions and luminance access. -/
structure GrayImage where
  width : Nat
  height : Nat
  pix : Nat → Nat → Nat

/-- The resize algorithm selector passed to the resampling primitive
(`fr::ResizeAlg::Nearest` and `fr::ResizeAlg::Convolution(Box)`). -/
inductive ResizeAlg where
  | Nearest
  | ConvolutionBox

/-- Modelled from the spec: the error type `MyError` of `common::errors`
(that module is not under src/). Per the spec, every pipeline failure is
surfaced as a single pipeline-error kind carrying a diagnostic message. -/
inductive MyError where
  | Pipeline (msg : String)
deriving DecidableEq

/-- Modelled from the spec: the diagnostic text `ERROR_DATA` of
`common::errors` (the exact wording is not in src/ and no claim depends
on it). -/
def ERROR_DATA : String := "Data error"

/-- Modelled from the spec: the diagnostic text `ERROR_RESIZE` of
`common::errors`. -/
def ERROR_RESIZE : String := "Resize error"

/-- The modulus of wrapping `u32` arithmetic. -/
def u32Mod : Nat := 4294967296

/-- The external resampling primitive (the `fast_image_resize` crate): given
the algorithm, the destination dimensions and the source image it either
fails with a diagnostic or yields the destination pixel content. The
pipeline is verified for every such primitive; src/ does not contain its
code. -/
abbrev ResizePrim := ResizeAlg → Nat → Nat → Image → Except String (Nat → Nat → Nat × Nat × Nat)

/-- The `ImagePipeline` struct: target resolution in character cells, the
character lookup table, and the flag for appending line breaks. -/
structure ImagePipeline where
  target_resolution : Nat × Nat
  char_map : CharMaps
  new_lines : Bool

/-- Models the luma conversion `into_luma8` of the external image crate
applied to an RGB image; only the preserved dimensions matter to the claims. -/
def into_luma8 (img : Image) : GrayImage :=
  { width := img.width
    height := img.height
    pix := fun x y =>
      match img.pix x y with
      | (r, g, b) => (2126 * r + 7152 * g + 722 * b) / 10000 }

/-- The `ImagePipeline::resize_single` helper: reject a zero source width or
height (`NonZeroU32::new(..).ok_or(Pipeline(ERROR_DATA))`) before the
primitive runs, surface a primitive failure as
`Pipeline(format!("{ERROR_RESIZE}:{err}"))`, and otherwise return the
destination image at exactly the requested dimensions. -/
def resize_single (prim : ResizePrim) (img : Image) (width height : Nat)
    (algo : ResizeAlg) : Except MyError Image :=
  if img.width = 0 then Except.error (MyError.Pipeline ERROR_DATA)
  else if img.height = 0 then Except.error (MyError.Pipeline ERROR_DATA)
  else
    match prim algo width height img with
    | Except.error err => Except.error (MyError.Pipeline (ERROR_RESIZE ++ ":" ++ err))
    | Except.ok content => Except.ok { width := width, height := height, pix := content }

/-- The `ImagePipeline::resize` method. The two destination extents of the
first stage are the `u32` products `target_resolution * subpixel resolution`
(wrapping, hence `% u32Mod`), checked non-zero by `NonZeroU32::new`; the
second stage resamples the subpixel image down to the target resolution,
whose components are checked non-zero the same way. -/
def resize (p : ImagePipeline) (prim : ResizePrim) (img : Image) :
    Except MyError (GrayImage × Image) :=
  if (p.target_resolution.1 * (CharMaps.get_subpixels p.char_map).1) % u32Mod = 0 then
    Except.error (MyError.Pipeline ERROR_DATA)
  else if (p.target_resolution.2 * (CharMaps.get_subpixels p.char_map).2) % u32Mod = 0 then
    Except.error (MyError.Pipeline ERROR_DATA)
  else
    match resize_single prim img
        ((p.target_resolution.1 * (CharMaps.get_subpixels p.char_map).1) % u32Mod)
        ((p.target_resolution.2 * (CharMaps.get_subpixels p.char_map).2) % u32Mod)
        ResizeAlg.Nearest with
    | Except.error e => Except.error e
    | Except.ok subpixel_img =>
      if p.target_resolution.1 = 0 then Except.error (MyError.Pipeline ERROR_DATA)
      else if p.target_resolution.2 = 0 then Except.error (MyError.Pipeline ERROR_DATA)
      else
        match resize_single prim subpixel_img
            p.target_resolution.1 p.target_resolution.2
            ResizeAlg.ConvolutionBox with
        | Except.error e => Except.error e
        | Except.ok color_img => Except.ok (into_luma8 subpixel_img, color_img)

/-- A resampling primitive that always succeeds with black content, standing
in for a successful run of the external resize crate. -/
def primOkW : ResizePrim := fun _ _ _ _ => Except.ok (fun _ _ => (0, 0, 0))

/-- A resampling primitive that always fails. -/
def primFailW : ResizePrim := fun _ _ _ _ => Except.error "boom"

/-- A 4×4 all-black source image. -/
def imgW : Image := { width := 4, height := 4, pix := fun _ _ => (0, 0, 0) }

/-- A 1×1-cell Braille pipeline. -/
def pipeW : ImagePipeline :=
  { target_resolution := (1, 1), char_map := CharMaps.Braille, new_lines := false }

/-- The luminance buffer `resize pipeW primOkW imgW` produces. -/
def lumW : GrayImage := into_luma8 { width := 2, height := 4, pix := fun _ _ => (0, 0, 0) }

/-- The color buffer `resize pipeW primOkW imgW` produces. -/
def colorW : Image := { width := 1, height := 1, pix := fun _ _ => (0, 0, 0) }

/-- A Braille pipeline whose target width 2^31 + 1 makes the `u32` product
`target width * subpixel width` wrap around to 2. -/
def pipeC : ImagePipeline :=
  { target_resolution := (2147483649, 1), char_map := CharMaps.Braille, new_lines := false }

/-- The luminance buffer `resize pipeC primOkW imgW` produces: 2 pixels wide. -/
def lumC : GrayImage := into_luma8 { width := 2, height := 4, pix := fun _ _ => (0, 0, 0) }

/-- The color buffer `resize pipeC primOkW imgW` produces. -/
def colorC : Image := { width := 2147483649, height := 1, pix := fun _ _ => (0, 0, 0) }

/-- A pipeline whose target width is zero. -/
def pipeZeroW : ImagePipeline :=
  { target_resolution := (0, 5), char_map := CharMaps.Braille, new_lines := false }

/-- Sequential collection of fallible elements (a Rust iterator `collect`
where producing an element can abort): `some` of the list of results when
every element succeeds, `none` as soon as one aborts. -/
def mapOpt {α β : Type} (f : α → Option β) : List α → Option (List β)
  | [] => some []
  | a :: as =>
    match f a, mapOpt f as with
    | some b, some bs => some (b :: bs)
    | _, _ => none

/-- The sub-image view `input.view(x0, y0, w, h)`: pixel access translated
by the block offsets (the encoders only read inside the block extent). -/
def GrayImage.view (g : GrayImage) (x0 y0 : Nat) : PixView :=
  fun dx dy => g.pix (x0 + dx) (y0 + dy)

/-- The characters chained onto row `y` by `to_ascii`:
`['\n', '\r'].take(2)` when `new_lines` is set and the row is not the last,
otherwise `take(0)`. -/
def line_break (p : ImagePipeline) (y : Nat) : List Char :=
  if p.new_lines ∧ y < p.target_resolution.2 - 1 then ['\n', '\r'] else []

/-- One row of glyphs of `to_ascii`: for each column `x` of the target grid,
the character obtained from the block view at
`(x * subpixel_width, y * subpixel_height)` (`u32` products, wrapping). -/
def row_glyphs (p : ImagePipeline) (input : GrayImage) (y : Nat) : Option (List Char) :=
  mapOpt
    (fun x => CharMaps.get_char p.char_map
      (GrayImage.view input
        ((x * (CharMaps.get_subpixels p.char_map).1) % u32Mod)
        ((y * (CharMaps.get_subpixels p.char_map).2) % u32Mod)))
    (List.range p.target_resolution.1)

/-- The `ImagePipeline::to_ascii` method: the two `assert_eq!` dimension
checks (aborting on mismatch, modelled as `none`), then one output line per
row, each line the row's glyphs followed by its `line_break` chain. -/
def to_ascii (p : ImagePipeline) (input : GrayImage) : Option (List (List Char)) :=
  if (p.target_resolution.1 * (CharMaps.get_subpixels p.char_map).1) % u32Mod ≠ input.width then
    none
  else if (p.target_resolution.2 * (CharMaps.get_subpixels p.char_map).2) % u32Mod ≠ input.height then
    none
  else
    mapOpt (fun y => (row_glyphs p input y).map (fun gs => gs ++ line_break p y))
      (List.range p.target_resolution.2)

/-- A 1×1-cell TeletextMosaic pipeline. -/
def pipeT : ImagePipeline :=
  { target_resolution := (1, 1), char_map := CharMaps.TeletextMosaic, new_lines := false }

/-- An all-dark 2×3 luminance buffer matching `pipeT`. -/
def imgT : GrayImage := { width := 2, height := 3, pix := fun _ _ => 0 }

/-- A 1×1 pipeline whose character map is the single line-break character,
reachable through `From<&str>` on the string `"\n"`. -/
def pipeNl : ImagePipeline :=
  { target_resolution := (1, 1), char_map := charMapsFromStr "\n", new_lines := false }

/-- A 1×1 all-dark luminance buffer matching `pipeNl`. -/
def imgNl : GrayImage := { width := 1, height := 1, pix := fun _ _ => 0 }

/-- A 2×2 pipeline over the single-character map with line breaks enabled. -/
def pipeW8 : ImagePipeline :=
  { target_resolution := (2, 2), char_map := CharMaps.Simple ['a'], new_lines := true }

/-- A 2×2 all-dark luminance buffer matching `pipeW8`. -/
def imgW8 : GrayImage := { width := 2, height := 2, pix := fun _ _ => 0 }

/-- C3: the SextantMosaic bitmask-to-glyph map follows the piecewise rule:
0 maps to space; 0x01–0x14 map to 0x1FB00 + (mask − 0x01); 0x15 maps to the
left-half block; 0x16–0x29 map to 0x1FB00 + (mask − 0x02); 0x2A maps to the
right-half block; 0x2B–0x3E map to 0x1FB00 + (mask − 0x03); 0x3F maps to the
full block. -/
theorem c3_mosaic_char_piecewise : ∀ m, m < 0x40 →
    (m = 0 → mosaic_char m = some ' ') ∧
    (0x01 ≤ m → m ≤ 0x14 → mosaic_char m = fromU32 (0x1FB00 + (m - 0x01))) ∧
    (m = 0x15 → mosaic_char m = some '▌') ∧
    (0x16 ≤ m → m ≤ 0x29 → mosaic_char m = fromU32 (0x1FB00 + (m - 0x02))) ∧
    (m = 0x2A → mosaic_char m = some '▐') ∧
    (0x2B ≤ m → m ≤ 0x3E → mosaic_char m = fromU32 (0x1FB00 + (m - 0x03))) ∧
    (m = 0x3F → mosaic_char m = some '█') := by
  intro m hm
  interval_cases m <;> exact (by decide)

/-- Witness for C3 at the boundary masks 0, 0x15, 0x2A and 0x3F. -/
theorem c3_witness :
    mosaic_char 0 = some ' ' ∧ mosaic_char 0x15 = some '▌' ∧
    mosaic_char 0x2A = some '▐' ∧ mosaic_char 0x3F = some '█' :=
  ⟨(c3_mosaic_char_piecewise 0 (by decide)).1 rfl,
   (c3_mosaic_char_piecewise 0x15 (by decide)).2.2.1 rfl,
   (c3_mosaic_char_piecewise 0x2A (by decide)).2.2.2.2.1 rfl,
   (c3_mosaic_char_piecewise 0x3F (by decide)).2.2.2.2.2.2 rfl⟩

/-- Bounds of the teletext glyph, established once by evaluation: for every
bitmask below 0x40 the computed codepoint is a valid scalar in
[0xE020, 0xE07F]. -/
theorem teletext_char_bounds : ∀ m, m < 0x40 →
    (teletext_mosaic_char m).isSome = true ∧
    0xE020 ≤ ((teletext_mosaic_char m).map Char.toNat).getD 0 ∧
    ((teletext_mosaic_char m).map Char.toNat).getD 0 ≤ 0xE07F := by
  intro m hm
  interval_cases m <;> exact (by decide)

/-- The mask accumulated from a 2×3 block is a sum of distinct bits among
0x1,0x2,0x4,0x8,0x10,0x20, hence at most 0x3F. -/
theorem teletextMask_le (v : PixView) : teletextMask v ≤ 0x3F := by
  simp only [teletextMask, teletext_blocks, List.foldl_cons, List.foldl_nil]
  split_ifs <;> decide

/-- Mask bound for the sextant mosaic accumulation loop. -/
theorem mosaicMask_le (v : PixView) : mosaicMask v ≤ 0x3F := by
  simp only [mosaicMask, mosaic_blocks, List.foldl_cons, List.foldl_nil]
  split_ifs <;> decide

/-- C4: for every bitmask in [0, 0x3F] the TeletextMosaic codepoint
`0xE020 + (mask & 0x1F) + ((mask & 0x20) << 1)` lies inside the documented
range 0xE000..=0xE0FF (the assertion never fires and the result is a valid
character), and the out-of-bounds abort for masks ≥ 0x40 is unreachable from
a 2×3 block sample because the accumulated mask is always at most 0x3F. -/
theorem c4_teletext_in_range :
    (∀ m, m < 0x40 →
      (teletext_mosaic_char m).isSome = true ∧
      (∀ c, teletext_mosaic_char m = some c →
        0xE000 ≤ c.toNat ∧ c.toNat ≤ 0xE0FF)) ∧
    (∀ v : PixView, teletextMask v ≤ 0x3F) := by
  constructor
  · intro m hm
    obtain ⟨hsome, hlo, hhi⟩ := teletext_char_bounds m hm
    refine ⟨hsome, ?_⟩
    intro c hc
    rw [hc] at hlo hhi
    simp only [Option.map_some', Option.getD_some] at hlo hhi
    exact ⟨le_trans (by decide) hlo, le_trans hhi (by decide)⟩
  · exact teletextMask_le

/-- Witness for C4 at mask 0x3F (codepoint 0xE07F) and a constant all-bright
block view. -/
theorem c4_witness :
    (teletext_mosaic_char 0x3F).isSome = true ∧
    (0xE000 ≤ (Char.ofNat 0xE07F).toNat ∧ (Char.ofNat 0xE07F).toNat ≤ 0xE0FF) ∧
    teletextMask (fun _ _ => 255) ≤ 0x3F :=
  ⟨(c4_teletext_in_range.1 0x3F (by decide)).1,
   (c4_teletext_in_range.1 0x3F (by decide)).2 (Char.ofNat 0xE07F) (by decide),
   c4_teletext_in_range.2 (fun _ _ => 255)⟩

/-- Folding `brailleStep` over any table ORs onto the accumulator the OR of
the contributed bits. -/
theorem brailleStep_foldl (v : PixView) (l : List ((Nat × Nat) × Nat)) :
    ∀ acc : Nat,
      l.foldl (brailleStep v) acc =
        acc ||| l.foldr (fun pb m => brailleBit v pb ||| m) 0 := by
  induction l with
  | nil => intro acc; simp
  | cons pb l ih =>
    intro acc
    obtain ⟨⟨x, y⟩, b⟩ := pb
    simp only [List.foldl_cons, List.foldr_cons, ih, brailleStep, brailleBit]
    by_cases h : v x y > 127
    · simp only [if_pos h, Nat.lor_assoc]
    · simp only [if_neg h, Nat.zero_or]

/-- C5: the BrailleDots encoder output is the character whose codepoint is
0x2800 OR'd with the 8-bit mask in which each sample position contributes its
designated bit weight (0x1, 0x8, 0x2, 0x10, 0x4, 0x20, 0x40, 0x80 for
(0,0), (1,0), (0,1), (1,1), (0,2), (1,2), (0,3), (1,3)) exactly when its
luminance is strictly greater than 127. -/
theorem c5_braille_bits (v : PixView) :
    CharMaps.get_char CharMaps.Braille v =
      fromU32 (0x2800 |||
        ((if v 0 0 > 127 then 0x1 else 0) |||
         ((if v 1 0 > 127 then 0x8 else 0) |||
          ((if v 0 1 > 127 then 0x2 else 0) |||
           ((if v 1 1 > 127 then 0x10 else 0) |||
            ((if v 0 2 > 127 then 0x4 else 0) |||
             ((if v 1 2 > 127 then 0x20 else 0) |||
              ((if v 0 3 > 127 then 0x40 else 0) |||
               (if v 1 3 > 127 then 0x80 else 0))))))))) := by
  simp only [CharMaps.get_char, brailleAccum, brailleStep_foldl, braille_dots,
    List.foldr_cons, List.foldr_nil, brailleBit, Nat.or_zero]

/-- C6 counterexample: an all-dark 2×4 block (every luminance 0) does not
yield the full Braille cell 0x28FF; the code sets a dot on luminance
strictly above 127, so the all-dark block yields the blank cell. -/
theorem c6_counterexample :
    CharMaps.get_char CharMaps.Braille (fun _ _ => 0) ≠ some (Char.ofNat 0x28FF) := by
  decide

/-- C6 (amended): an all-dark 2×4 block (every luminance 0) yields the blank
Braille cell 0x2800, and an all-bright block (every luminance 255) yields the
full Braille cell 0x28FF. -/
theorem c6_braille_extremes :
    CharMaps.get_char CharMaps.Braille (fun _ _ => 0) = some (Char.ofNat 0x2800) ∧
    CharMaps.get_char CharMaps.Braille (fun _ _ => 255) = some (Char.ofNat 0x28FF) := by
  constructor <;> decide

/-- A successful `resize_single` returns an image at exactly the requested
destination dimensions. -/
theorem resize_single_dims (prim : ResizePrim) (img : Image) (w h : Nat)
    (algo : ResizeAlg) (out : Image)
    (hok : resize_single prim img w h algo = Except.ok out) :
    out.width = w ∧ out.height = h := by
  unfold resize_single at hok
  split at hok
  · exact absurd hok (by simp)
  · split at hok
    · exact absurd hok (by simp)
    · split at hok
      · exact absurd hok (by simp)
      · injection hok with hok
        subst hok
        exact ⟨rfl, rfl⟩

/-- C1 (amended): when `resize` succeeds, the luminance buffer dimensions are
the wrapping `u32` products `target_resolution * subpixel resolution`
(`% 2^32`; equal to the exact products whenever they do not overflow), and
the color buffer dimensions equal the target resolution exactly. -/
theorem c1_resize_dims (p : ImagePipeline) (prim : ResizePrim) (img : Image)
    (lum : GrayImage) (color : Image)
    (h : resize p prim img = Except.ok (lum, color)) :
    lum.width = (p.target_resolution.1 * (CharMaps.get_subpixels p.char_map).1) % u32Mod ∧
    lum.height = (p.target_resolution.2 * (CharMaps.get_subpixels p.char_map).2) % u32Mod ∧
    color.width = p.target_resolution.1 ∧
    color.height = p.target_resolution.2 := by
  unfold resize at h
  split at h
  · exact absurd h (by simp)
  · split at h
    · exact absurd h (by simp)
    · split at h
      · exact absurd h (by simp)
      · rename_i subpixel_img hsub
        split at h
        · exact absurd h (by simp)
        · split at h
          · exact absurd h (by simp)
          · split at h
            · exact absurd h (by simp)
            · rename_i color_img hcolor
              injection h with h
              obtain ⟨hs1, hs2⟩ := resize_single_dims _ _ _ _ _ _ hsub
              obtain ⟨hc1, hc2⟩ := resize_single_dims _ _ _ _ _ _ hcolor
              have hlum : lum = into_luma8 subpixel_img := by
                have := congrArg Prod.fst h
                simpa using this.symm
              have hcol : color = color_img := by
                have := congrArg Prod.snd h
                simpa using this.symm
              subst hlum hcol
              simp [into_luma8, hs1, hs2, hc1, hc2]

/-- Witness for C1 on a 1×1 Braille pipeline: the resize succeeds and the
amended dimension postcondition holds there. -/
theorem c1_witness :
    lumW.width = (pipeW.target_resolution.1 * (CharMaps.get_subpixels pipeW.char_map).1) % u32Mod ∧
    lumW.height = (pipeW.target_resolution.2 * (CharMaps.get_subpixels pipeW.char_map).2) % u32Mod ∧
    colorW.width = pipeW.target_resolution.1 ∧
    colorW.height = pipeW.target_resolution.2 :=
  c1_resize_dims pipeW primOkW imgW lumW colorW rfl

/-- C1 counterexample: with target width 2^31 + 1 and the 2×4 Braille block,
`resize` succeeds, yet the luminance buffer width is the wrapped `u32`
product 2, not the exact product `target_resolution.0 * subpixel width`. -/
theorem c1_counterexample :
    resize pipeC primOkW imgW = Except.ok (lumC, colorC) ∧
    lumC.width ≠ pipeC.target_resolution.1 * (CharMaps.get_subpixels pipeC.char_map).1 :=
  ⟨rfl, by decide⟩

/-- C9: `resize` rejects a zero-valued target or source dimension with the
pipeline data error and no partial output; the rejection is independent of
the resampling primitive (so the primitive is not invoked); and when the
dimensions are accepted, a failing primitive is surfaced as the single
pipeline error kind carrying the diagnostic message, never retried. -/
theorem c9_resize_errors (p : ImagePipeline) (prim : ResizePrim) (img : Image) :
    ((p.target_resolution.1 = 0 ∨ p.target_resolution.2 = 0 ∨
        img.width = 0 ∨ img.height = 0) →
      resize p prim img = Except.error (MyError.Pipeline ERROR_DATA)) ∧
    ((p.target_resolution.1 = 0 ∨ p.target_resolution.2 = 0 ∨
        img.width = 0 ∨ img.height = 0) →
      ∀ prim' : ResizePrim, resize p prim img = resize p prim' img) ∧
    (∀ e, (∀ algo w h i, prim algo w h i = Except.error e) →
      (p.target_resolution.1 * (CharMaps.get_subpixels p.char_map).1) % u32Mod ≠ 0 →
      (p.target_resolution.2 * (CharMaps.get_subpixels p.char_map).2) % u32Mod ≠ 0 →
      img.width ≠ 0 → img.height ≠ 0 →
      resize p prim img = Except.error (MyError.Pipeline (ERROR_RESIZE ++ ":" ++ e))) := by
  have hzero : ∀ prim₀ : ResizePrim,
      (p.target_resolution.1 = 0 ∨ p.target_resolution.2 = 0 ∨
        img.width = 0 ∨ img.height = 0) →
      resize p prim₀ img = Except.error (MyError.Pipeline ERROR_DATA) := by
    intro prim₀ hz
    by_cases h1 : (p.target_resolution.1 * (CharMaps.get_subpixels p.char_map).1) % u32Mod = 0
    · simp [resize, h1]
    · by_cases h2 : (p.target_resolution.2 * (CharMaps.get_subpixels p.char_map).2) % u32Mod = 0
      · simp [resize, h1, h2]
      · have himg : img.width = 0 ∨ img.height = 0 := by
          rcases hz with hz | hz | hz | hz
          · exact absurd (by simp [hz]) h1
          · exact absurd (by simp [hz]) h2
          · exact Or.inl hz
          · exact Or.inr hz
        have hsingle : resize_single prim₀ img
            ((p.target_resolution.1 * (CharMaps.get_subpixels p.char_map).1) % u32Mod)
            ((p.target_resolution.2 * (CharMaps.get_subpixels p.char_map).2) % u32Mod)
            ResizeAlg.Nearest = Except.error (MyError.Pipeline ERROR_DATA) := by
          rcases himg with hw | hh
          · simp [resize_single, hw]
          · by_cases hw : img.width = 0 <;> simp [resize_single, hw, hh]
        simp [resize, h1, h2, hsingle]
  refine ⟨hzero prim, ?_, ?_⟩
  · intro hz prim'
    rw [hzero prim hz, hzero prim' hz]
  · intro e hfail h1 h2 hw hh
    have hsingle : resize_single prim img
        ((p.target_resolution.1 * (CharMaps.get_subpixels p.char_map).1) % u32Mod)
        ((p.target_resolution.2 * (CharMaps.get_subpixels p.char_map).2) % u32Mod)
        ResizeAlg.Nearest =
        Except.error (MyError.Pipeline (ERROR_RESIZE ++ ":" ++ e)) := by
      simp [resize_single, hw, hh, hfail]
    simp [resize, h1, h2, hsingle]

/-- Witness for C9: a zero target width is rejected with the data error for
both a succeeding and a failing primitive (equal results, primitive not
consulted), and with accepted dimensions a failing primitive surfaces the
wrapped diagnostic. -/
theorem c9_witness :
    resize pipeZeroW primOkW imgW = Except.error (MyError.Pipeline ERROR_DATA) ∧
    resize pipeZeroW primOkW imgW = resize pipeZeroW primFailW imgW ∧
    resize pipeW primFailW imgW =
      Except.error (MyError.Pipeline (ERROR_RESIZE ++ ":" ++ "boom")) :=
  ⟨(c9_resize_errors pipeZeroW primOkW imgW).1 (Or.inl rfl),
   (c9_resize_errors pipeZeroW primOkW imgW).2.1 (Or.inl rfl) primFailW,
   (c9_resize_errors pipeW primFailW imgW).2.2 "boom" (fun _ _ _ _ => rfl)
     (by decide) (by decide) (by decide) (by decide)⟩

/-- The Simple lookup index `len * L / 256` is in bounds for a non-empty
sequence and a `u8` luminance. -/
theorem lookup_idx_lt (len L : Nat) (hpos : 0 < len) (hL : L ≤ 255) :
    len * L / 256 < len := by
  have hlt : len * L < len * 256 :=
    mul_lt_mul_of_pos_left (Nat.lt_succ_of_le hL) hpos
  exact (Nat.div_lt_iff_lt_mul (by norm_num)).mpr hlt

/-- C2: for the Simple (Lookup) encoder with a non-empty sequence and a
luminance L in [0, 255], the selected index is `floor(N * L / 256)`, which
is always strictly below N (so the lookup is in bounds and the access
succeeds), and L = 0 selects the first character of the sequence. -/
theorem c2_lookup_index (cs : List Char) (v : PixView)
    (hne : cs ≠ []) (hL : v 0 0 ≤ 255) :
    CharMaps.get_char (CharMaps.Simple cs) v = cs.get? (cs.length * v 0 0 / 256) ∧
    cs.length * v 0 0 / 256 < cs.length ∧
    (CharMaps.get_char (CharMaps.Simple cs) v).isSome = true ∧
    (v 0 0 = 0 → CharMaps.get_char (CharMaps.Simple cs) v = cs.head?) := by
  have hpos : 0 < cs.length := List.length_pos.mpr hne
  have hidx : cs.length * v 0 0 / 256 < cs.length := lookup_idx_lt _ _ hpos hL
  refine ⟨rfl, hidx, ?_, ?_⟩
  · simp only [CharMaps.get_char]
    rw [List.get?_eq_get hidx]
    rfl
  · intro h0
    simp only [CharMaps.get_char, h0, Nat.mul_zero, Nat.zero_div]
    exact List.get?_zero cs

/-- Witness for C2 on the two-character sequence at luminance 255: the index
is 1, strictly below 2, and the access succeeds. -/
theorem c2_witness :
    CharMaps.get_char (CharMaps.Simple ['a', 'b']) (fun _ _ => 255) =
      ['a', 'b'].get? (2 * 255 / 256) ∧
    2 * 255 / 256 < 2 ∧
    (CharMaps.get_char (CharMaps.Simple ['a', 'b']) (fun _ _ => 255)).isSome = true ∧
    (255 = 0 → CharMaps.get_char (CharMaps.Simple ['a', 'b']) (fun _ _ => 255) =
      ['a', 'b'].head?) :=
  c2_lookup_index ['a', 'b'] (fun _ _ => 255) (by decide) (by decide)

/-- C10: the Simple lookup index is in bounds for every `u8` luminance
exactly when the character sequence is non-empty; with an empty sequence
`get_char` aborts on an out-of-bounds access for every input, including
luminance 0. -/
theorem c10_empty_simple (cs : List Char) :
    ((∀ L, L ≤ 255 → cs.length * L / 256 < cs.length) ↔ cs ≠ []) ∧
    (cs = [] → ∀ v : PixView, CharMaps.get_char (CharMaps.Simple cs) v = none) := by
  constructor
  · constructor
    · intro hall heq
      have h0 := hall 0 (by decide)
      rw [heq] at h0
      simp at h0
    · intro hne L hL
      exact lookup_idx_lt _ _ (List.length_pos.mpr hne) hL
  · intro heq v
    subst heq
    simp [CharMaps.get_char]

/-- Witness for C10: the empty sequence (as produced by `From<&str>` on the
empty string) aborts at luminance 0, while a one-character sequence stays in
bounds at luminance 255. -/
theorem c10_witness :
    CharMaps.get_char (charMapsFromStr "") (fun _ _ => 0) = none ∧
    1 * 255 / 256 < 1 :=
  ⟨(c10_empty_simple []).2 rfl (fun _ _ => 0),
   (c10_empty_simple ['a']).1.mpr (by decide) 255 (by decide)⟩

/-- A successful `mapOpt` relates input and output pointwise. -/
theorem mapOpt_forall₂ {α β : Type} (f : α → Option β) :
    ∀ (l : List α) (bs : List β), mapOpt f l = some bs →
      List.Forall₂ (fun a b => f a = some b) l bs := by
  intro l
  induction l with
  | nil =>
    intro bs h
    simp only [mapOpt] at h
    injection h with h
    subst h
    exact List.Forall₂.nil
  | cons a as ih =>
    intro bs h
    simp only [mapOpt] at h
    cases hfa : f a with
    | none => rw [hfa] at h; exact absurd h (by simp)
    | some b =>
      rw [hfa] at h
      cases hrest : mapOpt f as with
      | none => rw [hrest] at h; exact absurd h (by simp)
      | some bs' =>
        rw [hrest] at h
        injection h with h
        subst h
        exact List.Forall₂.cons hfa (ih bs' hrest)

/-- Length preservation of a successful `mapOpt`. -/
theorem mapOpt_length {α β : Type} (f : α → Option β) (l : List α) (bs : List β)
    (h : mapOpt f l = some bs) : bs.length = l.length :=
  (mapOpt_forall₂ f l bs h).length_eq.symm

/-- Each right-hand element of a `Forall₂` has a related left-hand source. -/
theorem forall₂_mem_right {α β : Type} {R : α → β → Prop} :
    ∀ {l : List α} {bs : List β}, List.Forall₂ R l bs →
      ∀ b ∈ bs, ∃ a ∈ l, R a b := by
  intro l bs hf
  induction hf with
  | nil => intro b hb; exact absurd hb (by simp)
  | cons hab _ ih =>
    intro b hb
    rcases List.mem_cons.mp hb with hb | hb
    · subst hb
      exact ⟨_, List.mem_cons_self _ _, hab⟩
    · obtain ⟨a, ha, hfa⟩ := ih b hb
      exact ⟨a, List.mem_cons_of_mem _ ha, hfa⟩

/-- Every element of a successful `mapOpt` comes from some input element. -/
theorem mapOpt_mem {α β : Type} (f : α → Option β) (l : List α) (bs : List β)
    (h : mapOpt f l = some bs) : ∀ b ∈ bs, ∃ a ∈ l, f a = some b :=
  forall₂_mem_right (mapOpt_forall₂ f l bs h)

/-- Pointwise access into a successful `mapOpt`. -/
theorem mapOpt_getElem? {α β : Type} (f : α → Option β) :
    ∀ (l : List α) (bs : List β), mapOpt f l = some bs →
      ∀ i : Nat, bs[i]? = (l[i]?).bind f := by
  intro l
  induction l with
  | nil =>
    intro bs h i
    simp only [mapOpt] at h
    injection h with h
    subst h
    simp
  | cons a as ih =>
    intro bs h i
    simp only [mapOpt] at h
    cases hfa : f a with
    | none => rw [hfa] at h; exact absurd h (by simp)
    | some b =>
      rw [hfa] at h
      cases hrest : mapOpt f as with
      | none => rw [hrest] at h; exact absurd h (by simp)
      | some bs' =>
        rw [hrest] at h
        injection h with h
        subst h
        cases i with
        | zero => simp [hfa]
        | succ i => simpa using ih bs' hrest i

/-- Transport of a pointwise function along the `mapOpt` relation. -/
theorem forall₂_map_eq {α β : Type} {R : α → β → Prop} {g : β → Nat} {k : α → Nat} :
    ∀ {l : List α} {bs : List β}, List.Forall₂ R l bs →
      (∀ a b, R a b → g b = k a) → bs.map g = l.map k := by
  intro l bs hf hgk
  induction hf with
  | nil => rfl
  | cons hab _ ih => simp [ih, hgk _ _ hab]

/-- Character occurrences in a flattened list of lines are summed per line. -/
theorem count_flatten_eq_sum (c : Char) :
    ∀ l : List (List Char), l.flatten.count c = (l.map (fun x => x.count c)).sum := by
  intro l
  induction l with
  | nil => simp
  | cons x xs ih => simp [List.count_append, ih]

/-- Summing an indicator of `y < m` over `range n` counts `min n m` hits. -/
theorem range_map_if_sum (m : Nat) :
    ∀ n : Nat, ((List.range n).map (fun y => if y < m then 1 else 0)).sum = min n m := by
  intro n
  induction n with
  | zero => simp
  | succ n ih =>
    rw [List.range_succ, List.map_append, List.sum_append]
    simp only [List.map_cons, List.map_nil, List.sum_cons, List.sum_nil, ih]
    split <;> omega

/-- A successful `to_ascii` is the successful row collection. -/
theorem to_ascii_rows (p : ImagePipeline) (input : GrayImage)
    (lines : List (List Char)) (h : to_ascii p input = some lines) :
    mapOpt (fun y => (row_glyphs p input y).map (fun gs => gs ++ line_break p y))
      (List.range p.target_resolution.2) = some lines := by
  unfold to_ascii at h
  split at h
  · exact absurd h (by simp)
  · split at h
    · exact absurd h (by simp)
    · exact h

/-- Every character the TeletextMosaic encoder emits has a codepoint of at
least 0xE020. -/
theorem teletext_get_char_lb (v : PixView) (c : Char)
    (h : CharMaps.get_char CharMaps.TeletextMosaic v = some c) :
    0xE020 ≤ c.toNat := by
  have hm : teletextMask v < 0x40 := Nat.lt_succ_of_le (teletextMask_le v)
  obtain ⟨hs, hlo, hhi⟩ := teletext_char_bounds (teletextMask v) hm
  simp only [CharMaps.get_char] at h
  rw [h] at hlo
  simpa using hlo

/-- C7 counterexample: rendering an all-dark 2×3 buffer on a 1×1 TeletextMosaic
grid returns the single line `[U+E020]`, which does not begin with the line
prefix U+E017 — `to_ascii` never emits the prefix. -/
theorem c7_counterexample :
    to_ascii pipeT imgT = some [[Char.ofNat 0xE020]] ∧
    Char.ofNat 0xE020 ≠ Char.ofNat 0xE017 := by
  constructor <;> decide

/-- C7 (amended): `to_ascii` does not prepend the line prefix: with the
TeletextMosaic encoder every returned line begins with a glyph (codepoint at
least 0xE020) or a line-break character, never with the prefix character
U+E017; the prefix is only exposed through `get_line_prefix` for callers to
emit themselves. -/
theorem c7_prefix_not_emitted (p : ImagePipeline) (input : GrayImage)
    (lines : List (List Char))
    (hcm : p.char_map = CharMaps.TeletextMosaic)
    (h : to_ascii p input = some lines) :
    CharMaps.get_line_prefix CharMaps.TeletextMosaic = [Char.ofNat 0xE017] ∧
    ∀ l ∈ lines, ∀ c, l.head? = some c → c ≠ Char.ofNat 0xE017 := by
  refine ⟨rfl, ?_⟩
  intro l hl c hc
  have hrows := to_ascii_rows p input lines h
  obtain ⟨y, hy, hrow⟩ := mapOpt_mem _ _ _ hrows l hl
  obtain ⟨gs, hgs, hl'⟩ := Option.map_eq_some'.mp hrow
  subst hl'
  cases gs with
  | nil =>
    rw [List.nil_append] at hc
    unfold line_break at hc
    split at hc
    · simp only [List.head?_cons] at hc
      injection hc with hc
      subst hc
      decide
    · simp at hc
  | cons g gs' =>
    rw [List.cons_append, List.head?_cons] at hc
    injection hc with hc
    subst hc
    obtain ⟨x, hx, hg⟩ := mapOpt_mem _ _ _ hgs g (List.mem_cons_self _ _)
    rw [hcm] at hg
    have hlb := teletext_get_char_lb _ _ hg
    intro heq
    rw [heq] at hlb
    exact absurd hlb (by decide)

/-- Witness for C7 on the concrete 1×1 TeletextMosaic render. -/
theorem c7_witness :
    CharMaps.get_line_prefix CharMaps.TeletextMosaic = [Char.ofNat 0xE017] ∧
    ∀ l ∈ ([[Char.ofNat 0xE020]] : List (List Char)), ∀ c, l.head? = some c →
      c ≠ Char.ofNat 0xE017 :=
  c7_prefix_not_emitted pipeT imgT [[Char.ofNat 0xE020]] rfl (by decide)

/-- With an encoder that never emits line-break characters, the count of a
line-break character in a rendered row is 1 exactly on non-final rows with
`new_lines` set, else 0. -/
theorem row_count_eq (p : ImagePipeline) (input : GrayImage)
    (hclean : ∀ v c, CharMaps.get_char p.char_map v = some c → c ≠ '\n' ∧ c ≠ '\r')
    (ch : Char) (hch : ch = '\n' ∨ ch = '\r') (y : Nat) (l : List Char)
    (hl : (row_glyphs p input y).map (fun gs => gs ++ line_break p y) = some l) :
    l.count ch = if p.new_lines ∧ y < p.target_resolution.2 - 1 then 1 else 0 := by
  obtain ⟨gs, hgs, hl'⟩ := Option.map_eq_some'.mp hl
  subst hl'
  rw [List.count_append]
  have hgs0 : gs.count ch = 0 := by
    rw [List.count_eq_zero]
    intro hmem
    obtain ⟨x, hx, hg⟩ := mapOpt_mem _ _ _ hgs ch hmem
    rcases hch with rfl | rfl
    · exact (hclean _ _ hg).1 rfl
    · exact (hclean _ _ hg).2 rfl
  rw [hgs0]
  unfold line_break
  split
  · rcases hch with rfl | rfl <;> decide
  · simp

/-- C8 (amended): `to_ascii` itself inserts line-break characters only as the
`"\n\r"` pair ending each non-final row when `new_lines` is set. For any
encoder whose glyphs are never `'\n'` or `'\r'`: with `new_lines` unset the
concatenation of the lines contains no line-break characters, and with
`new_lines` set an h-row render contains exactly h − 1 of each break
character, none of them in the final row. -/
theorem c8_line_breaks (p : ImagePipeline) (input : GrayImage)
    (lines : List (List Char))
    (h : to_ascii p input = some lines)
    (hclean : ∀ v c, CharMaps.get_char p.char_map v = some c → c ≠ '\n' ∧ c ≠ '\r') :
    lines.length = p.target_resolution.2 ∧
    (p.new_lines = false →
      lines.flatten.count '\n' = 0 ∧ lines.flatten.count '\r' = 0) ∧
    (p.new_lines = true →
      lines.flatten.count '\n' = p.target_resolution.2 - 1 ∧
      lines.flatten.count '\r' = p.target_resolution.2 - 1 ∧
      ∀ l, lines.getLast? = some l → l.count '\n' = 0 ∧ l.count '\r' = 0) := by
  have hrows := to_ascii_rows p input lines h
  have hlen : lines.length = p.target_resolution.2 := by
    simpa using mapOpt_length _ _ _ hrows
  have hcnt : ∀ ch, ch = '\n' ∨ ch = '\r' →
      lines.flatten.count ch =
        ((List.range p.target_resolution.2).map
          (fun y => if p.new_lines ∧ y < p.target_resolution.2 - 1 then 1 else 0)).sum := by
    intro ch hch
    rw [count_flatten_eq_sum]
    have hf := mapOpt_forall₂ _ _ _ hrows
    have hmap := forall₂_map_eq hf
      (fun y l hl => row_count_eq p input hclean ch hch y l hl)
    rw [hmap]
  have hlast : ∀ l, lines.getLast? = some l →
      (row_glyphs p input (p.target_resolution.2 - 1)).map
        (fun gs => gs ++ line_break p (p.target_resolution.2 - 1)) = some l := by
    intro l hlast
    have hne : lines ≠ [] := by
      intro he
      rw [he] at hlast
      simp at hlast
    have hpos : 0 < lines.length := List.length_pos.mpr hne
    have hidx : lines[lines.length - 1]? = some l := by
      rw [← List.getLast?_eq_getElem?]
      exact hlast
    rw [hlen] at hidx
    have hget := mapOpt_getElem? _ _ _ hrows (p.target_resolution.2 - 1)
    rw [hidx] at hget
    have hrange : (List.range p.target_resolution.2)[p.target_resolution.2 - 1]? =
        some (p.target_resolution.2 - 1) :=
      List.getElem?_range (by omega)
    rw [hrange] at hget
    simpa using hget.symm
  refine ⟨hlen, ?_, ?_⟩
  · intro hnl
    constructor
    · rw [hcnt '\n' (Or.inl rfl)]
      simp [hnl]
    · rw [hcnt '\r' (Or.inr rfl)]
      simp [hnl]
  · intro hnl
    have hmin := range_map_if_sum (p.target_resolution.2 - 1) p.target_resolution.2
    refine ⟨?_, ?_, ?_⟩
    · rw [hcnt '\n' (Or.inl rfl)]
      simp only [hnl, true_and]
      rw [hmin]
      omega
    · rw [hcnt '\r' (Or.inr rfl)]
      simp only [hnl, true_and]
      rw [hmin]
      omega
    · intro l hl
      have hrow := hlast l hl
      constructor
      · rw [row_count_eq p input hclean '\n' (Or.inl rfl) _ _ hrow]
        simp
      · rw [row_count_eq p input hclean '\r' (Or.inr rfl) _ _ hrow]
        simp

/-- C8 counterexample: with `new_lines` unset but a character map whose glyph
is itself `'\n'`, the concatenation of the returned lines does contain a
line-break character. -/
theorem c8_counterexample :
    pipeNl.new_lines = false ∧
    to_ascii pipeNl imgNl = some [['\n']] ∧
    ([['\n']] : List (List Char)).flatten.count '\n' ≠ 0 :=
  ⟨rfl, by decide, by decide⟩

/-- The one-character map `['a']` never emits a line-break character. -/
theorem simple_singleton_clean :
    ∀ (v : PixView) (c : Char),
      CharMaps.get_char (CharMaps.Simple ['a']) v = some c → c ≠ '\n' ∧ c ≠ '\r' := by
  intro v c hc
  simp only [CharMaps.get_char] at hc
  have hca : c = 'a' := by
    cases hidx : (['a'] : List Char).length * v 0 0 / 256 with
    | zero =>
      rw [hidx] at hc
      have h0 : (['a'] : List Char).get? 0 = some 'a' := rfl
      rw [h0] at hc
      injection hc with hc
      exact hc.symm
    | succ i =>
      rw [hidx] at hc
      have h1 : (['a'] : List Char).get? (Nat.succ i) = none := rfl
      rw [h1] at hc
      exact absurd hc (by simp)
  subst hca
  exact ⟨by decide, by decide⟩

/-- Witness for C8 on the concrete 2×2 render: two lines, one break pair
after the first row and none after the last. -/
theorem c8_witness :
    ([['a', 'a', '\n', '\r'], ['a', 'a']] : List (List Char)).length =
      pipeW8.target_resolution.2 ∧
    (pipeW8.new_lines = false →
      ([['a', 'a', '\n', '\r'], ['a', 'a']] : List (List Char)).flatten.count '\n' = 0 ∧
      ([['a', 'a', '\n', '\r'], ['a', 'a']] : List (List Char)).flatten.count '\r' = 0) ∧
    (pipeW8.new_lines = true →
      ([['a', 'a', '\n', '\r'], ['a', 'a']] : List (List Char)).flatten.count '\n' =
        pipeW8.target_resolution.2 - 1 ∧
      ([['a', 'a', '\n', '\r'], ['a', 'a']] : List (List Char)).flatten.count '\r' =
        pipeW8.target_resolution.2 - 1 ∧
      ∀ l, ([['a', 'a', '\n', '\r'], ['a', 'a']] : List (List Char)).getLast? = some l →
        l.count '\n' = 0 ∧ l.count '\r' = 0) :=
  c8_line_breaks pipeW8 imgW8 [['a', 'a', '\n', '\r'], ['a', 'a']] (by decide)
    simple_singleton_clean

